import Mathlib

/-!
Verification of the article micro-service core.

Shallow embedding of `src/main.go` (repository `article_go_lang_microservice`).
The embedded variant is the evolved one (mutex-guarded store of
`DomainDataObject` records whose `Tags` field is a Go `map[string]int`).

Modelling conventions:
* A Go `map[string]int` is an association list `List (String × Nat)` with
  no duplicate keys; `mapInsert` mirrors Go map assignment (update-or-append)
  and `mapMember` mirrors the `_, pres := m[k]` presence test.
* Go map iteration order is unspecified and randomized across runs.  Every
  place the code ranges over a map is parameterized by an iteration order
  `o : List String`; an order is admissible (`validEnum`) iff it is a
  permutation of the map's key list.
* `time.Now().Format("2006-01-02")` is an external input, passed in as the
  `now : String` argument of the operations that stamp dates.
* HTTP plumbing (URL splitting, JSON, status codes) is the adapter layer;
  the embedding models the core operation each handler performs after
  parsing.  A handler's error exit is `none` / an error value.
-/

/-- `DtoPostRequestArticle` from main.go: the POST request body
`{Title, Body, Tags}` (a draft: no id, no date). -/
structure DtoPostRequestArticle where
  Title : String
  Body : String
  Tags : List String
deriving Repr, DecidableEq

/-- `DomainDataObject` from main.go: the stored record.  `Tags` is the Go
`map[string]int`, embedded as an association list. -/
structure DomainDataObject where
  Id : Int
  Title : String
  Date : String
  Body : String
  Tags : List (String × Nat)
deriving Repr, DecidableEq

/-- `DtoRespArticle` from main.go: the listing projection
`{Id, Title, Date, Body, Tags}` with `Tags` a `[]string`. -/
structure DtoRespArticle where
  Id : Int
  Title : String
  Date : String
  Body : String
  Tags : List String
deriving Repr, DecidableEq

/-- `DtoResponseTagArticles` from main.go: the tag-query response. -/
structure DtoResponseTagArticles where
  Tag : String
  Count : Nat
  Articles : List Int
  Related_Tags : List String
deriving Repr, DecidableEq

/-- Go map membership test `_, pres := m[k]`. -/
def mapMember (k : String) (m : List (String × Nat)) : Bool :=
  m.any (fun p => p.1 == k)

/-- Go map assignment `m[k] = v`: overwrite the value if the key is
present, otherwise append a fresh entry. -/
def mapInsert (m : List (String × Nat)) (k : String) (v : Nat) : List (String × Nat) :=
  if mapMember k m then m.map (fun p => if p.1 == k then (k, v) else p)
  else m ++ [(k, v)]

/-- The key list of an embedded Go map. -/
def mapKeys (m : List (String × Nat)) : List String :=
  m.map Prod.fst

/-- An admissible Go map iteration order: any permutation of the key list.
Go randomizes map range order, so every such permutation is a possible run. -/
def validEnum (m : List (String × Nat)) (o : List String) : Prop :=
  o.Perm (mapKeys m)

instance (m : List (String × Nat)) (o : List String) :
    Decidable (validEnum m o) :=
  List.decidablePerm o (mapKeys m)

/-- `strings.ReplaceAll(date, "-", "")` as used on stored dates in
`getTags`: drop every `-` character. -/
def stripDashes (s : String) : String :=
  String.mk (s.data.filter (fun c => c ≠ '-'))

/-- The match test of the `getTags` loop body: the stored date with dashes
removed equals the query date, and the `Tags` map contains the query tag
(`_, pres := h.store[i].Tags[tagQ]`). -/
def matchesTagDate (tagQ dateQ : String) (a : DomainDataObject) : Bool :=
  stripDashes a.Date == dateQ && mapMember tagQ a.Tags

/-- The `for i := 0; i < len(h.store); i++` loop of `getTags`, carrying the
loop state `(ids, count, tagMap)`.  On a match it appends the record's `Id`
to `ids`, increments `count`, and ranges over the record's `Tags` doing
`tagMap[k] = 0`. -/
def tagScan (tagQ dateQ : String) :
    List DomainDataObject → List Int → Nat → List (String × Nat) →
      List Int × Nat × List (String × Nat)
  | [], ids, count, tagMap => (ids, count, tagMap)
  | a :: rest, ids, count, tagMap =>
    if matchesTagDate tagQ dateQ a then
      tagScan tagQ dateQ rest (ids ++ [a.Id]) (count + 1)
        (a.Tags.foldl (fun m p => mapInsert m p.1 0) tagMap)
    else
      tagScan tagQ dateQ rest ids count tagMap

/-- The `tagMap` accumulated by the `getTags` loop over the whole store. -/
def tagUnion (store : List DomainDataObject) (tagQ dateQ : String) :
    List (String × Nat) :=
  (tagScan tagQ dateQ store [] 0 []).2.2

/-- `articleHandlers.getTags` (core of the handler, after URL parsing):
runs the scan loop and assembles `DtoResponseTagArticles`.  `o` is the
iteration order of the final `for k := range tagMap` loop; it is a free
parameter because Go map range order is unspecified (theorems quantify over
`validEnum (tagUnion store tagQ dateQ) o`). -/
def getTags (store : List DomainDataObject) (tagQ dateQ : String)
    (o : List String) : DtoResponseTagArticles :=
  let r := tagScan tagQ dateQ store [] 0 []
  { Tag := tagQ, Count := r.2.1, Articles := r.1, Related_Tags := o }

/-- `articleHandlers.process_id_request` (core, after `ParseUint` succeeded,
so the id is a natural number): Go rejects with 400 when
`finalIntNum > len(h.store)-1` (Go `int` arithmetic, hence the `Int` cast),
otherwise serves `h.store[finalIntNum]`. -/
def process_id_request (store : List DomainDataObject) (id : Nat) :
    Option DomainDataObject :=
  if (id : Int) > (store.length : Int) - 1 then none
  else store[id]?

/-- `articleHandlers.ConvertReqDtoToDomain`: stamps `Id = len(h.store)`
(the pre-append length, passed here as `storeLen`), the current date, and
builds the `Tags` map by `domain.Tags[dtoReq.Tags[i]] = i`. -/
def ConvertReqDtoToDomain (storeLen : Nat) (now : String)
    (dtoReq : DtoPostRequestArticle) : DomainDataObject :=
  { Id := (storeLen : Int)
    Title := dtoReq.Title
    Date := now
    Body := dtoReq.Body
    Tags := dtoReq.Tags.enum.foldl (fun m p => mapInsert m p.2 p.1) [] }

/-- `articleHandlers.post` (core, after the JSON body decoded): convert the
request DTO and append it to the store. -/
def post (store : List DomainDataObject) (now : String)
    (dtoReq : DtoPostRequestArticle) : List DomainDataObject :=
  store ++ [ConvertReqDtoToDomain store.length now dtoReq]

/-- One record's projection inside `CreateRespStoreFromDomainStore`:
`dto.Tags = make([]string, len(tags))` fills the slice with
`len(tags)` empty strings, and the subsequent `append` loop adds the keys
in map iteration order `o`. -/
def recordToResp (a : DomainDataObject) (o : List String) : DtoRespArticle :=
  { Id := a.Id
    Title := a.Title
    Date := a.Date
    Body := a.Body
    Tags := List.replicate a.Tags.length "" ++ o }

/-- `articleHandlers.CreateRespStoreFromDomainStore`: one projection per
stored record, in store order; `orders` gives the map iteration order used
for each record's tag loop. -/
def CreateRespStoreFromDomainStore (store : List DomainDataObject)
    (orders : List (List String)) : List DtoRespArticle :=
  List.zipWith recordToResp store orders

/-- `newArticleHandlers`: the seeded initial store (one record, `Id = 0`,
dated at startup time). -/
def newArticleHandlers (now : String) : List DomainDataObject :=
  [{ Id := 0
     Title := "latest science shows that potato chips are better for you than sugar"
     Date := now
     Body := "some text, potentially containing simple markup about how potato chips are great"
     Tags := [("health", 0), ("fitness", 1), ("science", 2)] }]

/-- Store states reachable by the program: the seeded initial store,
followed by any number of successful `post` commits (the only mutator;
every other handler only reads the store). -/
inductive Reachable : List DomainDataObject → Prop where
  | seed (now : String) : Reachable (newArticleHandlers now)
  | step (s : List DomainDataObject) (now : String) (d : DtoPostRequestArticle) :
      Reachable s → Reachable (post s now d)

/-- Committing a sequence of drafts (each with its ingestion date) in order
onto a store: the fold of `post`. -/
def commitAll (s : List DomainDataObject) :
    List (DtoPostRequestArticle × String) → List DomainDataObject
  | [] => s
  | (d, now) :: rest => commitAll (post s now d) rest

/-- Modelled from the spec: the submission error taxonomy
(`QueueFullError`, `QueueClosedError`) of §6/§7.  The ingestion queue is
absent from src/main.go (`enqueuPostRequests` is an empty stub), so it is
modelled from the spec's words. -/
inductive SubmitError where
  | queueFull
  | queueClosed
deriving Repr, DecidableEq

/-- Modelled from the spec: the ingestion queue of §4.1, a bounded buffer
with an open/closed flag.  Missing from src/main.go, where
`enqueuPostRequests` has an empty body. -/
structure IngestQueue where
  buffer : List DtoPostRequestArticle
  capacity : Nat
  closed : Bool
deriving Repr, DecidableEq

/-- Modelled from the spec: the whole system state, queue plus store
(§2 control flow). -/
structure SysState where
  queue : IngestQueue
  store : List DomainDataObject
deriving Repr, DecidableEq

/-- Modelled from the spec: `submit(draft)` of §4.1/§6 (non-blocking
variant of §7).  After the queue is closed, submission fails immediately
with a QueueClosed error; when full it fails with QueueFull; otherwise the
draft is placed at the tail.  The store is untouched by submission. -/
def submitSys (sys : SysState) (d : DtoPostRequestArticle) :
    SysState × Option SubmitError :=
  if sys.queue.closed then (sys, some SubmitError.queueClosed)
  else if sys.queue.capacity ≤ sys.queue.buffer.length then
    (sys, some SubmitError.queueFull)
  else
    ({ sys with queue := { sys.queue with buffer := sys.queue.buffer ++ [d] } },
      none)

/-- A sample pair of drafts used to exercise the queue model. -/
def sampleDrafts : List DtoPostRequestArticle :=
  [{ Title := "t1", Body := "b1", Tags := ["x"] },
   { Title := "t2", Body := "b2", Tags := [] }]

/-- A sample system state whose ingestion queue holds `sampleDrafts` and
has been closed, over the seeded store. -/
def sampleClosedSys : SysState :=
  { queue := { buffer := sampleDrafts, capacity := 8, closed := true },
    store := newArticleHandlers "2022-04-07" }

/-! ## Helper lemmas about the Go-map embedding -/

theorem mapMember_iff (t : String) (m : List (String × Nat)) :
    mapMember t m = true ↔ t ∈ mapKeys m := by
  simp [mapMember, mapKeys, List.any_eq_true, List.mem_map]

theorem mapKeys_mapInsert (k : String) (v : Nat) (m : List (String × Nat)) :
    mapKeys (mapInsert m k v) =
      if mapMember k m then mapKeys m else mapKeys m ++ [k] := by
  by_cases h : mapMember k m = true
  · simp only [mapInsert, if_pos h, mapKeys, List.map_map]
    refine List.map_congr_left ?_
    intro p _
    by_cases hp : (p.1 == k) = true
    · simp only [Function.comp, if_pos hp]
      exact (beq_iff_eq.mp hp).symm
    · simp only [Function.comp, if_neg hp]
  · simp only [mapInsert, h, if_neg, Bool.false_eq_true, if_false, mapKeys,
      List.map_append, List.map_cons, List.map_nil]

theorem mapMember_mapInsert (t k : String) (v : Nat) (m : List (String × Nat)) :
    mapMember t (mapInsert m k v) = true ↔ t = k ∨ mapMember t m = true := by
  rw [mapMember_iff, mapKeys_mapInsert]
  by_cases h : mapMember k m = true
  · rw [if_pos h, ← mapMember_iff]
    constructor
    · exact Or.inr
    · rintro (rfl | h2)
      · exact h
      · exact h2
  · rw [if_neg h]
    simp [List.mem_append, ← mapMember_iff]
    tauto

theorem keyNodup_mapInsert (k : String) (v : Nat) (m : List (String × Nat))
    (h : (mapKeys m).Nodup) : (mapKeys (mapInsert m k v)).Nodup := by
  rw [mapKeys_mapInsert]
  by_cases hm : mapMember k m = true
  · rw [if_pos hm]; exact h
  · rw [if_neg hm]
    have : k ∉ mapKeys m := fun hk => hm ((mapMember_iff k m).mpr hk)
    simp [List.nodup_append, h, this]

theorem mapMember_exists (x : String) (m : List (String × Nat)) :
    mapMember x m = true ↔ ∃ p ∈ m, p.1 = x := by
  simp [mapMember, List.any_eq_true]

/-- Membership after the inner loop `for k := range tags { tagMap[k] = 0 }`
of `getTags`. -/
theorem mapMember_tagsFold (tags : List (String × Nat))
    (m0 : List (String × Nat)) (x : String) :
    mapMember x (tags.foldl (fun m2 p => mapInsert m2 p.1 0) m0) = true ↔
      mapMember x m0 = true ∨ mapMember x tags = true := by
  induction tags generalizing m0 with
  | nil => simp [mapMember]
  | cons p tags ih =>
    rw [List.foldl_cons, ih, mapMember_mapInsert]
    have hp : mapMember x (p :: tags) = (p.1 == x || mapMember x tags) := by
      simp [mapMember]
    rw [hp]
    simp [Bool.or_eq_true]
    constructor
    · rintro ((h | h0) | h1)
      · exact Or.inr (Or.inl h.symm)
      · exact Or.inl h0
      · exact Or.inr (Or.inr h1)
    · rintro (h0 | (h | h1))
      · exact Or.inl (Or.inr h0)
      · exact Or.inl (Or.inl h.symm)
      · exact Or.inr h1

theorem keyNodup_tagsFold (tags : List (String × Nat))
    (m0 : List (String × Nat)) (h : (mapKeys m0).Nodup) :
    (mapKeys (tags.foldl (fun m2 p => mapInsert m2 p.1 0) m0)).Nodup := by
  induction tags generalizing m0 with
  | nil => exact h
  | cons p tags ih => exact ih _ (keyNodup_mapInsert _ _ _ h)

/-- Membership after the tag-building loop of `ConvertReqDtoToDomain`,
`domain.Tags[dtoReq.Tags[i]] = i`, folded over the indexed tag list. -/
theorem mapMember_enumFold (l : List (Nat × String))
    (m0 : List (String × Nat)) (t : String) :
    mapMember t (l.foldl (fun m p => mapInsert m p.2 p.1) m0) = true ↔
      mapMember t m0 = true ∨ ∃ p ∈ l, p.2 = t := by
  induction l generalizing m0 with
  | nil => simp
  | cons b l ih =>
    rw [List.foldl_cons, ih, mapMember_mapInsert]
    constructor
    · rintro ((h | h0) | ⟨p, hp, hpt⟩)
      · exact Or.inr ⟨b, List.mem_cons_self b l, h.symm⟩
      · exact Or.inl h0
      · exact Or.inr ⟨p, List.mem_cons_of_mem b hp, hpt⟩
    · rintro (h0 | ⟨p, hp, hpt⟩)
      · exact Or.inl (Or.inr h0)
      · rcases List.mem_cons.mp hp with rfl | hp2
        · exact Or.inl (Or.inl hpt.symm)
        · exact Or.inr ⟨p, hp2, hpt⟩

/-- Membership in the whole accumulated `tagMap`: the outer fold over the
matching records. -/
theorem mapMember_tagFold (l : List DomainDataObject)
    (m0 : List (String × Nat)) (x : String) :
    mapMember x (l.foldl
        (fun m a => a.Tags.foldl (fun m2 p => mapInsert m2 p.1 0) m) m0) = true ↔
      mapMember x m0 = true ∨ ∃ a ∈ l, mapMember x a.Tags = true := by
  induction l generalizing m0 with
  | nil => simp
  | cons b l ih =>
    rw [List.foldl_cons, ih, mapMember_tagsFold]
    constructor
    · rintro ((h0 | hb) | ⟨a, ha, hx⟩)
      · exact Or.inl h0
      · exact Or.inr ⟨b, List.mem_cons_self b l, hb⟩
      · exact Or.inr ⟨a, List.mem_cons_of_mem b ha, hx⟩
    · rintro (h0 | ⟨a, ha, hx⟩)
      · exact Or.inl (Or.inl h0)
      · rcases List.mem_cons.mp ha with rfl | ha2
        · exact Or.inl (Or.inr hx)
        · exact Or.inr ⟨a, ha2, hx⟩

theorem keyNodup_tagFold (l : List DomainDataObject)
    (m0 : List (String × Nat)) (h : (mapKeys m0).Nodup) :
    (mapKeys (l.foldl
        (fun m a => a.Tags.foldl (fun m2 p => mapInsert m2 p.1 0) m) m0)).Nodup := by
  induction l generalizing m0 with
  | nil => exact h
  | cons b l ih => exact ih _ (keyNodup_tagsFold _ _ h)

/-! ## Characterization of the `getTags` scan loop -/

theorem tagScan_eq (t d : String) (store : List DomainDataObject)
    (ids : List Int) (count : Nat) (tagMap : List (String × Nat)) :
    tagScan t d store ids count tagMap =
      (ids ++ (store.filter (matchesTagDate t d)).map (fun a => a.Id),
       count + (store.filter (matchesTagDate t d)).length,
       (store.filter (matchesTagDate t d)).foldl
         (fun m a => a.Tags.foldl (fun m2 p => mapInsert m2 p.1 0) m) tagMap) := by
  induction store generalizing ids count tagMap with
  | nil => simp [tagScan]
  | cons a rest ih =>
    by_cases h : matchesTagDate t d a = true
    · simp [tagScan, h, List.filter_cons, ih]
      omega
    · simp [tagScan, h, List.filter_cons, ih]

theorem getTags_Articles (store : List DomainDataObject) (t d : String)
    (o : List String) :
    (getTags store t d o).Articles =
      (store.filter (matchesTagDate t d)).map (fun a => a.Id) := by
  simp [getTags, tagScan_eq]

theorem getTags_Count (store : List DomainDataObject) (t d : String)
    (o : List String) :
    (getTags store t d o).Count = (store.filter (matchesTagDate t d)).length := by
  simp [getTags, tagScan_eq]

theorem tagUnion_eq (store : List DomainDataObject) (t d : String) :
    tagUnion store t d =
      (store.filter (matchesTagDate t d)).foldl
        (fun m a => a.Tags.foldl (fun m2 p => mapInsert m2 p.1 0) m) [] := by
  simp [tagUnion, tagScan_eq]

theorem mapMember_tagUnion (store : List DomainDataObject) (t d x : String) :
    mapMember x (tagUnion store t d) = true ↔
      ∃ a ∈ store, matchesTagDate t d a = true ∧ mapMember x a.Tags = true := by
  rw [tagUnion_eq, mapMember_tagFold]
  simp [mapMember, List.mem_filter]
  tauto

theorem keyNodup_tagUnion (store : List DomainDataObject) (t d : String) :
    (mapKeys (tagUnion store t d)).Nodup := by
  rw [tagUnion_eq]
  exact keyNodup_tagFold _ _ (by simp [mapKeys])

/-! ## Reachable-store invariants -/

theorem reachable_id_index (s : List DomainDataObject) (hs : Reachable s) :
    ∀ (i : Nat) (hi : i < s.length), s[i].Id = (i : Int) := by
  induction hs with
  | seed now =>
    intro i hi
    simp [newArticleHandlers] at hi
    subst hi
    rfl
  | step s now d _ ih =>
    intro i hi
    by_cases h : i < s.length
    · simp only [post]
      rw [List.getElem_append_left h]
      exact ih i h
    · have hlen : i = s.length := by
        simp [post] at hi
        omega
      simp only [post]
      rw [List.getElem_concat_length s _ i hlen]
      simp [ConvertReqDtoToDomain, hlen]

theorem reachable_pairwise (s : List DomainDataObject) (hs : Reachable s) :
    s.Pairwise (fun a b => a.Id < b.Id) := by
  rw [List.pairwise_iff_getElem]
  intro i j hi hj hij
  rw [reachable_id_index s hs i hi, reachable_id_index s hs j hj]
  exact_mod_cast hij

/-! ## Committing sequences of drafts -/

theorem commitAll_length (ds : List (DtoPostRequestArticle × String)) :
    ∀ s : List DomainDataObject, (commitAll s ds).length = s.length + ds.length := by
  induction ds with
  | nil => intro s; simp [commitAll]
  | cons p rest ih =>
    intro s
    obtain ⟨d, now⟩ := p
    rw [commitAll, ih]
    simp [post]
    omega

theorem commitAll_map_id (ds : List (DtoPostRequestArticle × String)) :
    ∀ s : List DomainDataObject,
      (commitAll s ds).map (fun a => a.Id) =
        s.map (fun a => a.Id) ++
          (List.range' s.length ds.length).map (fun n => (n : Int)) := by
  induction ds with
  | nil => intro s; simp [commitAll]
  | cons p rest ih =>
    intro s
    obtain ⟨d, now⟩ := p
    rw [commitAll, ih]
    simp [post, ConvertReqDtoToDomain, List.range'_succ]

theorem commitAll_getElem_left (ds : List (DtoPostRequestArticle × String)) :
    ∀ (s : List DomainDataObject) (i : Nat), i < s.length →
      (commitAll s ds)[i]? = s[i]? := by
  induction ds with
  | nil => intro s i _; rfl
  | cons p rest ih =>
    intro s i hi
    obtain ⟨d, now⟩ := p
    rw [commitAll, ih _ i (by simp [post]; omega)]
    rw [post, List.getElem?_append, if_pos hi]

theorem commitAll_getElem (ds : List (DtoPostRequestArticle × String)) :
    ∀ (s : List DomainDataObject) (j : Nat) (hj : j < ds.length),
      (commitAll s ds)[s.length + j]? =
        some (ConvertReqDtoToDomain (s.length + j) (ds.get ⟨j, hj⟩).2
          (ds.get ⟨j, hj⟩).1) := by
  induction ds with
  | nil => intro s j hj; exact absurd hj (by simp)
  | cons p rest ih =>
    intro s j hj
    obtain ⟨d, now⟩ := p
    match j with
    | 0 =>
      simp only [Nat.add_zero]
      rw [commitAll, commitAll_getElem_left rest (post s now d) s.length
        (by simp [post])]
      simp [post, List.getElem?_append]
    | Nat.succ j2 =>
      have hj2 : j2 < rest.length := by simpa using hj
      have := ih (post s now d) j2 hj2
      rw [commitAll]
      have harith : s.length + (j2 + 1) = (post s now d).length + j2 := by
        simp [post]; omega
      rw [harith, this]
      simp [post]

/-! ## Claim theorems -/

/-- C10: in every reachable store state, the record stored at index `i`
has `Id` equal to `i`; this holds for the seeded initial store and is
preserved by every operation, `post` being the only mutator (it appends a
record whose `Id` is the pre-append store length). -/
theorem reachable_store_id_eq_index (s : List DomainDataObject)
    (hs : Reachable s) (i : Nat) (hi : i < s.length) :
    s[i].Id = (i : Int) :=
  reachable_id_index s hs i hi

/-- Witness for C10: the seeded store satisfies the invariant at index 0. -/
theorem reachable_store_id_eq_index_witness :
    Reachable (newArticleHandlers "2022-04-07") ∧
      (newArticleHandlers "2022-04-07")[0].Id = (0 : Int) :=
  ⟨Reachable.seed "2022-04-07",
    reachable_store_id_eq_index _ (Reachable.seed "2022-04-07") 0 (by decide)⟩

/-- C1: in every reachable store state, for every query tag `t` and date
string `d`, `getTags` returns `Articles` containing exactly the ids of
stored records whose date with the `-` separators removed equals `d` and
whose tag map contains `t`, in strictly ascending order, with `Count` the
number of such records. -/
theorem getTags_matching_ids (store : List DomainDataObject) (t d : String)
    (o : List String) (hs : Reachable store) :
    (∀ x : Int, x ∈ (getTags store t d o).Articles ↔
        ∃ a ∈ store, matchesTagDate t d a = true ∧ a.Id = x)
    ∧ List.Sorted (· < ·) (getTags store t d o).Articles
    ∧ (getTags store t d o).Count = (store.filter (matchesTagDate t d)).length := by
  refine ⟨?_, ?_, getTags_Count store t d o⟩
  · intro x
    rw [getTags_Articles]
    simp [List.mem_map, List.mem_filter, and_assoc]
  · rw [getTags_Articles, List.Sorted, List.pairwise_map]
    exact List.Pairwise.filter (matchesTagDate t d) (reachable_pairwise store hs)

/-- Witness for C1: the query of the spec scenario on the seeded store. -/
theorem getTags_matching_ids_witness :
    Reachable (newArticleHandlers "2022-04-07") ∧
      ((∀ x : Int,
          x ∈ (getTags (newArticleHandlers "2022-04-07") "health" "20220407"
              ["health", "fitness", "science"]).Articles ↔
            ∃ a ∈ newArticleHandlers "2022-04-07",
              matchesTagDate "health" "20220407" a = true ∧ a.Id = x)
        ∧ List.Sorted (· < ·)
            (getTags (newArticleHandlers "2022-04-07") "health" "20220407"
              ["health", "fitness", "science"]).Articles
        ∧ (getTags (newArticleHandlers "2022-04-07") "health" "20220407"
              ["health", "fitness", "science"]).Count =
            ((newArticleHandlers "2022-04-07").filter
              (matchesTagDate "health" "20220407")).length) :=
  ⟨Reachable.seed "2022-04-07",
    getTags_matching_ids (newArticleHandlers "2022-04-07") "health" "20220407"
      ["health", "fitness", "science"] (Reachable.seed "2022-04-07")⟩

/-- C2: committing `n` drafts onto an initially empty store assigns the
ids `0 .. n-1` in commit order, and every single commit assigns id equal
to the store length at commit time. -/
theorem commit_ids_zero_to_n (ds : List (DtoPostRequestArticle × String)) :
    (commitAll [] ds).map (fun a => a.Id) =
        (List.range ds.length).map (fun n => (n : Int))
    ∧ ∀ (s : List DomainDataObject) (now : String) (d : DtoPostRequestArticle),
        (ConvertReqDtoToDomain s.length now d).Id = (s.length : Int) := by
  constructor
  · rw [commitAll_map_id]
    simp [List.range_eq_range']
  · intro s now d
    rfl

/-- C3 counterexample: `Related_Tags` is emitted by ranging over a Go map,
whose iteration order is randomized; two admissible runs of the very same
query over the very same store return different `Related_Tags` sequences,
so the output is neither deterministic across runs nor sorted. -/
theorem getTags_related_tags_nondet :
    validEnum (tagUnion (newArticleHandlers "2022-04-07") "health" "20220407")
        ["health", "fitness", "science"]
    ∧ validEnum (tagUnion (newArticleHandlers "2022-04-07") "health" "20220407")
        ["fitness", "health", "science"]
    ∧ (getTags (newArticleHandlers "2022-04-07") "health" "20220407"
          ["health", "fitness", "science"]).Related_Tags ≠
        (getTags (newArticleHandlers "2022-04-07") "health" "20220407"
          ["fitness", "health", "science"]).Related_Tags := by
  refine ⟨by decide, by decide, by decide⟩

/-- C3 (amended): for every admissible map iteration order, `Related_Tags`
equals, as a set, the deduplicated union of the tag sets of all matching
records; it is duplicate-free and contains the queried tag whenever a match
exists; but the sequence order is the map iteration order, which is not
deterministic across runs. -/
theorem getTags_related_tags (store : List DomainDataObject) (t d : String)
    (o : List String) (ho : validEnum (tagUnion store t d) o) :
    (∀ x : String, x ∈ (getTags store t d o).Related_Tags ↔
        ∃ a ∈ store, matchesTagDate t d a = true ∧ mapMember x a.Tags = true)
    ∧ (getTags store t d o).Related_Tags.Nodup
    ∧ (store.filter (matchesTagDate t d) ≠ [] →
        t ∈ (getTags store t d o).Related_Tags) := by
  have hrel : (getTags store t d o).Related_Tags = o := rfl
  have hmem : ∀ x : String, x ∈ o ↔
      ∃ a ∈ store, matchesTagDate t d a = true ∧ mapMember x a.Tags = true := by
    intro x
    rw [ho.mem_iff, ← mapMember_iff, mapMember_tagUnion]
  refine ⟨by rw [hrel]; exact hmem, ?_, ?_⟩
  · rw [hrel]
    exact ho.symm.nodup (keyNodup_tagUnion store t d)
  · intro hne
    obtain ⟨a, ha⟩ := List.exists_mem_of_ne_nil _ hne
    rw [List.mem_filter] at ha
    rw [hrel, hmem]
    refine ⟨a, ha.1, ha.2, ?_⟩
    have h2 := ha.2
    simp only [matchesTagDate, Bool.and_eq_true] at h2
    exact h2.2

/-- Witness for C3 (amended): the seeded store with one admissible order. -/
theorem getTags_related_tags_witness :
    validEnum (tagUnion (newArticleHandlers "2022-04-07") "health" "20220407")
        ["science", "health", "fitness"]
    ∧ ((∀ x : String,
          x ∈ (getTags (newArticleHandlers "2022-04-07") "health" "20220407"
              ["science", "health", "fitness"]).Related_Tags ↔
            ∃ a ∈ newArticleHandlers "2022-04-07",
              matchesTagDate "health" "20220407" a = true ∧
                mapMember x a.Tags = true)
        ∧ (getTags (newArticleHandlers "2022-04-07") "health" "20220407"
            ["science", "health", "fitness"]).Related_Tags.Nodup
        ∧ ((newArticleHandlers "2022-04-07").filter
              (matchesTagDate "health" "20220407") ≠ [] →
            "health" ∈ (getTags (newArticleHandlers "2022-04-07") "health"
              "20220407" ["science", "health", "fitness"]).Related_Tags)) :=
  ⟨by decide,
    getTags_related_tags (newArticleHandlers "2022-04-07") "health" "20220407"
      ["science", "health", "fitness"] (by decide)⟩

/-- C5: a query with zero matching records succeeds and returns
`Count = 0`, empty `Articles` and empty `Related_Tags` (the handler takes
no error exit on an unknown tag or date; it serves this empty result). -/
theorem getTags_no_match (store : List DomainDataObject) (t d : String)
    (o : List String) (h : ∀ a ∈ store, matchesTagDate t d a = false)
    (ho : validEnum (tagUnion store t d) o) :
    getTags store t d o =
      { Tag := t, Count := 0, Articles := [], Related_Tags := [] } := by
  have hf : store.filter (matchesTagDate t d) = [] := by
    rw [List.filter_eq_nil_iff]
    intro a ha
    simp [h a ha]
  have ho2 : o = [] := by
    have : mapKeys (tagUnion store t d) = [] := by
      rw [tagUnion_eq, hf]
      rfl
    rw [validEnum, this, List.perm_nil] at ho
    exact ho
  have hc : (getTags store t d o).Count = 0 := by
    rw [getTags_Count, hf]
    rfl
  have hart : (getTags store t d o).Articles = [] := by
    rw [getTags_Articles, hf]
    rfl
  have hrel : (getTags store t d o).Related_Tags = o := rfl
  have htag : (getTags store t d o).Tag = t := rfl
  cases hg : getTags store t d o
  rw [hg] at hc hart hrel htag
  simp at hc hart hrel htag
  simp [hc, hart, htag, hrel, ho2]

/-- Witness for C5: an unknown tag on the seeded store. -/
theorem getTags_no_match_witness :
    (∀ a ∈ newArticleHandlers "2022-04-07",
        matchesTagDate "nonexistent" "20220407" a = false)
    ∧ validEnum (tagUnion (newArticleHandlers "2022-04-07") "nonexistent"
        "20220407") []
    ∧ getTags (newArticleHandlers "2022-04-07") "nonexistent" "20220407" [] =
        { Tag := "nonexistent", Count := 0, Articles := [], Related_Tags := [] } :=
  ⟨by decide, by decide,
    getTags_no_match (newArticleHandlers "2022-04-07") "nonexistent" "20220407"
      [] (by decide) (by decide)⟩

/-- C6: on a reachable store, `process_id_request` returns the stored
record whose `Id` equals the requested id whenever `id < length`, and
fails (the 400 "index not valid" exit, embedded as `none`) whenever
`id ≥ length`; it never mutates the store (it is a pure read). -/
theorem process_id_request_spec (s : List DomainDataObject)
    (hs : Reachable s) (id : Nat) :
    (id < s.length →
      ∃ a, process_id_request s id = some a ∧ a.Id = (id : Int))
    ∧ (s.length ≤ id → process_id_request s id = none) := by
  constructor
  · intro h
    refine ⟨s[id], ?_, reachable_id_index s hs id h⟩
    unfold process_id_request
    rw [if_neg (by omega), List.getElem?_eq_getElem h]
  · intro h
    unfold process_id_request
    rw [if_pos (by omega)]

/-- Witness for C6: id 0 exists in the seeded store; ids ≥ 1 fail. -/
theorem process_id_request_spec_witness :
    Reachable (newArticleHandlers "2022-04-07") ∧
      ((0 < (newArticleHandlers "2022-04-07").length →
          ∃ a, process_id_request (newArticleHandlers "2022-04-07") 0 = some a
            ∧ a.Id = (0 : Int))
        ∧ ((newArticleHandlers "2022-04-07").length ≤ 0 →
            process_id_request (newArticleHandlers "2022-04-07") 0 = none)) :=
  ⟨Reachable.seed "2022-04-07",
    process_id_request_spec _ (Reachable.seed "2022-04-07") 0⟩

/-- C7: round-trip; committing a draft and fetching the assigned id
(the pre-append store length) returns a record whose title, body and tag
set equal the draft's, dated with the ingestion-time date. -/
theorem submit_getById_roundtrip (s : List DomainDataObject) (now : String)
    (dtoReq : DtoPostRequestArticle) :
    ∃ a, process_id_request (post s now dtoReq) s.length = some a
      ∧ a.Title = dtoReq.Title ∧ a.Body = dtoReq.Body ∧ a.Date = now
      ∧ ∀ tg : String, mapMember tg a.Tags = true ↔ tg ∈ dtoReq.Tags := by
  refine ⟨ConvertReqDtoToDomain s.length now dtoReq, ?_, rfl, rfl, rfl, ?_⟩
  · unfold process_id_request
    rw [if_neg (by simp [post])]
    simp [post, List.getElem?_append]
  · intro tg
    have h := mapMember_enumFold dtoReq.Tags.enum [] tg
    simp only [ConvertReqDtoToDomain]
    rw [h]
    have h2 : (∃ p ∈ dtoReq.Tags.enum, p.2 = tg) ↔ tg ∈ dtoReq.Tags := by
      conv_rhs => rw [← List.enum_map_snd dtoReq.Tags]
      exact (List.mem_map).symm
    simp [mapMember, h2]

/-- C9 (queue modelled from the spec; absent from src): once the queue is
closed, `submit` fails immediately with QueueClosed, leaving queue and
store unchanged; the single Committer drains the accepted buffer in strict
FIFO arrival order, the j-th buffered draft becoming the record at store
position (and with id) `store.length + j`. -/
theorem queue_closed_submit_fails_fifo (sys : SysState)
    (d : DtoPostRequestArticle) (hclosed : sys.queue.closed = true)
    (now : String) (j : Nat) (hj : j < sys.queue.buffer.length) :
    submitSys sys d = (sys, some SubmitError.queueClosed)
    ∧ (commitAll sys.store
          (sys.queue.buffer.map (fun q => (q, now))))[sys.store.length + j]? =
        some (ConvertReqDtoToDomain (sys.store.length + j) now
          (sys.queue.buffer.get ⟨j, hj⟩)) := by
  constructor
  · simp [submitSys, hclosed]
  · have hj2 : j < (sys.queue.buffer.map (fun q => (q, now))).length := by
      simpa using hj
    rw [commitAll_getElem (sys.queue.buffer.map (fun q => (q, now)))
      sys.store j hj2]
    simp [List.get_eq_getElem, List.getElem_map]

/-- Witness for C9: a closed queue holding two drafts over the seeded
store; the second buffered draft becomes the record at store position 2. -/
theorem queue_closed_submit_fails_fifo_witness :
    sampleClosedSys.queue.closed = true
    ∧ 1 < sampleClosedSys.queue.buffer.length
    ∧ (submitSys sampleClosedSys { Title := "late", Body := "late", Tags := [] } =
        (sampleClosedSys, some SubmitError.queueClosed)
      ∧ (commitAll sampleClosedSys.store
            (sampleClosedSys.queue.buffer.map
              (fun q => (q, "2022-04-08"))))[sampleClosedSys.store.length + 1]? =
          some (ConvertReqDtoToDomain (sampleClosedSys.store.length + 1)
            "2022-04-08" (sampleClosedSys.queue.buffer.get ⟨1, by decide⟩))) :=
  ⟨rfl, by decide,
    queue_closed_submit_fails_fifo sampleClosedSys
      { Title := "late", Body := "late", Tags := [] } rfl "2022-04-08" 1
      (by decide)⟩

/-- C4 (the code evaluated at the failing input): `ConvertReqDtoToDomain`
stores the tag "Health" verbatim — no case folding — and `getTags`
compares the query tag case-sensitively, so a record committed with tag
"Health" is missed by the query for "health" on its own date (count 0)
while the exact-case query "Health" finds it (count 1). -/
theorem tags_not_case_folded :
    mapMember "Health"
        (ConvertReqDtoToDomain 0 "2022-04-07"
          { Title := "a", Body := "b", Tags := ["Health"] }).Tags = true
    ∧ mapMember "health"
        (ConvertReqDtoToDomain 0 "2022-04-07"
          { Title := "a", Body := "b", Tags := ["Health"] }).Tags = false
    ∧ validEnum
        (tagUnion (post [] "2022-04-07"
          { Title := "a", Body := "b", Tags := ["Health"] }) "health" "20220407")
        []
    ∧ (getTags (post [] "2022-04-07"
          { Title := "a", Body := "b", Tags := ["Health"] })
        "health" "20220407" []).Count = 0
    ∧ (getTags (post [] "2022-04-07"
          { Title := "a", Body := "b", Tags := ["Health"] })
        "Health" "20220407" ["Health"]).Count = 1 :=
  ⟨by decide, by decide, by decide, by decide, by decide⟩

/-- C8 (the code evaluated at the failing input): on the seeded store,
whose single record carries exactly the three tags health/fitness/science,
the listing projection built by `CreateRespStoreFromDomainStore` has a
`Tags` slice of length 6 — `make([]string, len)` pre-fills three empty
strings and the `append` loop adds the three real tags after them — so the
projection's tag list is not "exactly the record's tags, each once"
(the record has no empty-string tag). -/
theorem listAll_tags_padded :
    (newArticleHandlers "2022-04-07").map (fun a => mapKeys a.Tags) =
        [["health", "fitness", "science"]]
    ∧ (∀ a ∈ newArticleHandlers "2022-04-07",
        validEnum a.Tags ["health", "fitness", "science"])
    ∧ (∀ a ∈ newArticleHandlers "2022-04-07", mapMember "" a.Tags = false)
    ∧ (CreateRespStoreFromDomainStore (newArticleHandlers "2022-04-07")
          [["health", "fitness", "science"]]).map (fun r => r.Tags) =
        [["", "", "", "health", "fitness", "science"]] :=
  ⟨by decide, by decide, by decide, by decide⟩
